import Mathlib

/-!
Verification of the icmp-transfer core: a shallow embedding of the ICMP link
layer (`IcmpCommunicator` in libs/icmp_communicator/src/lib.rs) and of the
reliable-delivery layer ODP (src/src/odp.rs), together with theorems settling
the specification claims.

Bytes are modelled as `Nat` (with `< 256` well-formedness hypotheses where a
statement needs them); the `u64` counters and the checksum accumulator carry
an explicit `% 2 ^ 64` exactly where the Rust code uses wrapping `u64`
arithmetic.  Fallible transport calls are modelled by an oracle
`Transport : List Nat → TrRes` giving the value `IcmpCommunicator::sendto`
returned for a given frame.  A slice or `byteorder` read that would panic in
Rust is modelled by the explicit outcome `RecvRes.crash`.
-/

set_option maxRecDepth 10000

-- Constants from src/src/odp.rs
def TYPE_SND : Nat := 83  -- 'S' as u8, new packet

def TYPE_ACK : Nat := 65  -- 'A' as u8, packet ack

def TYPE_AGN : Nat := 71  -- 'G' as u8, resend request

def PKT_HDR_SIZE : Nat := 10

def PKT_MAX_SIZE : Nat := 1480

def WINDOW_SIZE : Nat := 2

-- Constants from src/libs/icmp_communicator/src/lib.rs
def PKT_HEADER : List Nat := [0, 0, 0, 0]

def IP_SIZE : Nat := 20

-- 2^64, the modulus of Rust's u64 arithmetic
def U64 : Nat := 2 ^ 64

/-- `byteorder` `LittleEndian::write_u64`: the eight little-endian bytes of a u64. -/
def u64le (n : Nat) : List Nat :=
  [n % 256, n / 2 ^ 8 % 256, n / 2 ^ 16 % 256, n / 2 ^ 24 % 256,
   n / 2 ^ 32 % 256, n / 2 ^ 40 % 256, n / 2 ^ 48 % 256, n / 2 ^ 56 % 256]

/-- Little-endian u64 read of the eight bytes at offset `off` (total function,
used only where the slice is long enough). -/
def readU64 (l : List Nat) (off : Nat) : Nat :=
  l.getD off 0 + l.getD (off + 1) 0 * 2 ^ 8 + l.getD (off + 2) 0 * 2 ^ 16 +
  l.getD (off + 3) 0 * 2 ^ 24 + l.getD (off + 4) 0 * 2 ^ 32 + l.getD (off + 5) 0 * 2 ^ 40 +
  l.getD (off + 6) 0 * 2 ^ 48 + l.getD (off + 7) 0 * 2 ^ 56

/-- `byteorder` `LittleEndian::read_u64` on the slice starting at `off`:
`none` models the panic raised when fewer than eight bytes remain. -/
def readU64Opt (l : List Nat) (off : Nat) : Option Nat :=
  if off + 8 ≤ l.length then some (readU64 l off) else none

/-- `ODPError` from src/src/odp.rs (the payload of `ICError` is dropped). -/
inductive ODPError where
  | ICError
  | ProtocolError
  | AckError
  | SndError
  | RemoteWindowFull
  | Unknown
deriving DecidableEq, Repr

/-- The mutable state of an `ODP` endpoint (src/src/odp.rs): the `com` and
`peer` fields are externalized (transport oracle / source-address flag). -/
structure ODP where
  seqnum : Nat                        -- u64
  peer_seqnum : Nat                   -- u64
  ack_wait : List (Nat × List Nat)    -- Vec<(Seqnum, Vec<u8>)>
deriving DecidableEq, Repr

/-- `ODP::new`: fresh counters, empty retransmission buffer. -/
def ODP.new : ODP := ⟨0, 0, []⟩

/-- Result of one `IcmpCommunicator::sendto` call as seen by ODP:
`err` is `Err(ICError)`, `ok n` is `Ok(n)` (payload bytes accepted). -/
inductive TrRes where
  | err
  | ok (n : Nat)
deriving DecidableEq, Repr

/-- Transport oracle: the value `com.sendto(frame, peer)` returns. -/
def Transport : Type := List Nat → TrRes

/-- A transport in which every `sendto` accepts the full frame: the kernel
reports `4 + |frame|` bytes written and `IcmpCommunicator::sendto` subtracts
its 4-byte header. -/
def trPerfect : Transport := fun f => .ok f.length

/-- A transport whose `sendto` reports zero payload bytes accepted. -/
def trZero : Transport := fun _ => .ok 0

/-- Result of `ODP::send`. -/
inductive SendOutcome where
  | fail (e : ODPError)
  | accepted (n : Nat)
deriving DecidableEq, Repr

/-- The SND frame built by `ODP::send`: type, reserved byte, little-endian
seqnum, then at most `PKT_MAX_SIZE - PKT_HDR_SIZE` payload bytes. -/
def sndFrame (seqnum : Nat) (buf : List Nat) : List Nat :=
  TYPE_SND :: 0 :: (u64le seqnum ++ buf.take (min (PKT_MAX_SIZE - PKT_HDR_SIZE) buf.length))

/-- `ODP::send` (src/src/odp.rs lines 64-96).  Returns the `Result`, the new
endpoint state and the frames handed to the wire.  Note that the code
increments `self.seqnum` before inspecting the `sendto` result. -/
def ODP.send (tr : Transport) (st : ODP) (buf : List Nat) :
    SendOutcome × ODP × List (List Nat) :=
  if WINDOW_SIZE ≤ st.ack_wait.length then (.fail .RemoteWindowFull, st, [])
  else
    let seqnum := st.seqnum
    let sysbuf := sndFrame seqnum buf
    let st1 : ODP := { st with seqnum := (st.seqnum + 1) % U64 }
    match tr sysbuf with
    | .err => (.fail .ICError, st1, [])
    | .ok n =>
      if n < PKT_HDR_SIZE then (.fail .SndError, st1, [])
      else (.accepted (n - PKT_HDR_SIZE),
            { st1 with ack_wait := st1.ack_wait ++ [(seqnum, sysbuf)] }, [sysbuf])

/-- `Result<Option<usize>>` of `ODP::recv`. -/
inductive RecvOut where
  | fail (e : ODPError)
  | done (n : Option Nat)
deriving DecidableEq, Repr

/-- Outcome of a receive step: either a Rust panic (`crash`) or a returned
result with the new state, the caller's buffer after copying, and the frames
emitted on the wire during the call. -/
inductive RecvRes where
  | crash
  | ret (res : RecvOut) (st : ODP) (buf : List Nat) (ems : List (List Nat))
deriving DecidableEq, Repr

/-- `copy_buf` (src/src/odp.rs lines 233-237): copy `min |dst| |src|` bytes of
`src` over the front of `dst`; returns the new `dst` and the count. -/
def copy_buf (dst src : List Nat) : List Nat × Nat :=
  let copylen := min dst.length src.length
  (src.take copylen ++ dst.drop copylen, copylen)

/-- The 10-byte ACK frame built by `ODP::send_ack_`. -/
def ackFrame (seqnum : Nat) : List Nat := TYPE_ACK :: 0 :: u64le seqnum

/-- The 18-byte AGN frame built by `ODP::send_agn_`. -/
def agnFrame (f t : Nat) : List Nat := TYPE_AGN :: 0 :: (u64le f ++ u64le t)

/-- `ODP::send_ack_`: `Ok(PKT_HDR_SIZE)` is success, any other count is
`ProtocolError`, a transport error is `ICError`. -/
def ODP.send_ack_ (tr : Transport) (seqnum : Nat) : Option ODPError :=
  match tr (ackFrame seqnum) with
  | .ok n => if n = PKT_HDR_SIZE then none else some .ProtocolError
  | .err => some .ICError

/-- `ODP::send_agn_`: a count other than the 18-byte frame length is
`Unknown`, a transport error is `ICError`. -/
def ODP.send_agn_ (tr : Transport) (f t : Nat) : Option ODPError :=
  match tr (agnFrame f t) with
  | .err => some .ICError
  | .ok n => if n ≠ PKT_HDR_SIZE + 8 then some .Unknown else none

/-- `ODP::handle_ack_` (lines 118-127): cumulative ack, `retain s > seqnum`. -/
def ODP.handle_ack_ (st : ODP) (buf : List Nat) (ack : List Nat) : RecvRes :=
  match readU64Opt ack 2 with
  | none => .crash
  | some seqnum =>
    .ret (.done none)
      { st with ack_wait := st.ack_wait.filter (fun p => seqnum < p.1),
                peer_seqnum := max st.peer_seqnum seqnum }
      buf []

/-- `ODP::handle_snd_` (lines 129-151). -/
def ODP.handle_snd_ (tr : Transport) (st : ODP) (buf : List Nat) (snd : List Nat) : RecvRes :=
  match readU64Opt snd 2 with
  | none => .crash
  | some seqnum =>
    if seqnum < st.peer_seqnum then
      match ODP.send_ack_ tr st.peer_seqnum with
      | some e => .ret (.fail e) st buf []
      | none => .ret (.done none) st buf [ackFrame st.peer_seqnum]
    else if seqnum = st.peer_seqnum then
      match ODP.send_ack_ tr st.peer_seqnum with
      | some e => .ret (.fail e) st buf []
      | none =>
        let c := copy_buf buf (snd.drop PKT_HDR_SIZE)
        .ret (.done (some c.2)) { st with peer_seqnum := (st.peer_seqnum + 1) % U64 } c.1
          [ackFrame st.peer_seqnum]
    else
      match ODP.send_agn_ tr st.peer_seqnum seqnum with
      | some e => .ret (.fail e) st buf []
      | none => .ret (.done none) st buf [agnFrame st.peer_seqnum seqnum]

/-- The resend loop of `ODP::handle_agn_`: re-emit each buffered frame in
order, aborting on the first transport error (`?`); returns the frames
actually emitted and whether the loop completed. -/
def resendAll (tr : Transport) : List (Nat × List Nat) → List (List Nat) × Bool
  | [] => ([], true)
  | (_, f) :: rest =>
    match tr f with
    | .err => ([], false)
    | .ok _ =>
      let r := resendAll tr rest
      (f :: r.1, r.2)

/-- `ODP::handle_agn_` (lines 153-174).  Both u64 reads happen before the
`from > to` check, so a `G` frame shorter than 18 bytes crashes.  The retain
and the `peer_seqnum` update precede the resend loop, so they persist even
when a resend fails. -/
def ODP.handle_agn_ (tr : Transport) (st : ODP) (buf : List Nat) (agn : List Nat) : RecvRes :=
  match readU64Opt agn 2, readU64Opt agn 10 with
  | some f, some t =>
    if t < f then .ret (.fail .ProtocolError) st buf []
    else
      let st' : ODP := { st with ack_wait := st.ack_wait.filter (fun p => f ≤ p.1),
                                 peer_seqnum := max st.peer_seqnum f }
      let r := resendAll tr st'.ack_wait
      if r.2 then .ret (.done none) st' buf r.1
      else .ret (.fail .ICError) st' buf r.1
  | _, _ => .crash

/-- `ODP::recv` from line 104 on, given that `com.recvfrom` reported
`Some((|frame|, p))` with `p == self.peer` and `|frame| ≤ PKT_MAX_SIZE`
(so that `sysbuf[..s]` is exactly `frame`). -/
def ODP.recv_frame (tr : Transport) (st : ODP) (buf : List Nat) (frame : List Nat) : RecvRes :=
  if frame.length < PKT_HDR_SIZE then .ret (.fail .ProtocolError) st buf []
  else
    let pkttype := frame.getD 0 0
    if pkttype = TYPE_ACK then ODP.handle_ack_ st buf frame
    else if pkttype = TYPE_AGN then ODP.handle_agn_ tr st buf frame
    else if pkttype = TYPE_SND then ODP.handle_snd_ tr st buf frame
    else .ret (.fail .ProtocolError) st buf []

/-- Carry folding of `IcmpCommunicator::sendto`:
`while (accum >> 16) > 0 { accum = (accum & 0xFFFF) + (accum >> 16) }`,
written with fuel (the loop strictly decreases `accum`, so `accum` itself is
always enough fuel). -/
def fold16_go : Nat → Nat → Nat
  | 0, accum => accum
  | fuel + 1, accum =>
    if accum / 2 ^ 16 > 0 then fold16_go fuel (accum % 2 ^ 16 + accum / 2 ^ 16) else accum

/-- The little-endian pair-sum of `IcmpCommunicator::sendto`: add byte `b` at
index `i` shifted by `8*(i % 2)` into a wrapping u64 accumulator. -/
def icmp_accum : List Nat → Nat → Nat → Nat
  | [], _, accum => accum
  | b :: rest, i, accum => icmp_accum rest (i + 1) ((accum + b * 2 ^ (8 * (i % 2))) % U64)

/-- The checksum value computed by `IcmpCommunicator::sendto`: pair-sum, carry
folding, then u64 bitwise complement (`accum = !accum`). -/
def icmp_checksum (data : List Nat) : Nat :=
  let a0 := icmp_accum data 0 0
  (U64 - 1) - fold16_go a0 a0

/-- The full ICMP payload emitted by `IcmpCommunicator::sendto` for user bytes
`payload`: 4-byte header with the id at offset 1, checksum bytes (low at
offset 2, high at offset 3) filled in after the sum. -/
def icmp_sendto_data (id : Nat) (payload : List Nat) : List Nat :=
  let data := PKT_HEADER.set 1 id ++ payload
  let accum := icmp_checksum data
  (data.set 2 (accum % 256)).set 3 (accum / 256 % 256)

/-- Internet-checksum verification over emitted bytes: pair-sum with carry
folding, then 16-bit one's complement. -/
def icmp_verify (data : List Nat) : Nat :=
  let a0 := icmp_accum data 0 0
  (2 ^ 16 - 1) - fold16_go a0 a0

/-- `IcmpCommunicator::recvfrom` (lines 97-132): `dgram` is the raw datagram
the kernel delivers (truncated to the 4096-byte scratch buffer), `src` the
source address.  Returns the `Option<(len, addr)>` and the caller's buffer
after copying. -/
def icmp_recvfrom (ownId : Nat) (buf : List Nat) (dgram : List Nat) (src : Nat) :
    Option (Nat × Nat) × List Nat :=
  let sz := min dgram.length 4096
  if sz < IP_SIZE + PKT_HEADER.length then (none, buf)
  else
    let data := dgram.take sz
    let icmp_data := data.drop IP_SIZE
    let user_data := icmp_data.drop PKT_HEADER.length
    if icmp_data.getD 0 0 ≠ 0 then (none, buf)          -- not type 0x00
    else if icmp_data.getD 1 0 = 0 then (none, buf)     -- no signature
    else if icmp_data.getD 1 0 = ownId then (none, buf) -- our own packet
    else
      let c := copy_buf buf user_data
      (some (user_data.length, src), c.1)

/-- `ODP::recv` (lines 98-116) composed with `IcmpCommunicator::recvfrom` on
the 1480-byte `sysbuf`.  `srcIsPeer` models the `p != self.peer` test.  The
packet type is read from `sysbuf[0]` before the arm slices `sysbuf[..s]`;
a reported length `s > PKT_MAX_SIZE` makes that slice panic (`crash`). -/
def ODP.recv (tr : Transport) (ownId : Nat) (st : ODP) (buf : List Nat)
    (dgram : List Nat) (srcIsPeer : Bool) (src : Nat) : RecvRes :=
  let r := icmp_recvfrom ownId (List.replicate PKT_MAX_SIZE 0) dgram src
  match r.1 with
  | none => .ret (.done none) st buf []
  | some (s, _) =>
    if ¬ srcIsPeer then .ret (.done none) st buf []
    else if s < PKT_HDR_SIZE then .ret (.fail .ProtocolError) st buf []
    else
      let sysbuf := r.2
      let pkttype := sysbuf.getD 0 0
      if pkttype = TYPE_ACK then
        if PKT_MAX_SIZE < s then .crash else ODP.handle_ack_ st buf (sysbuf.take s)
      else if pkttype = TYPE_AGN then
        if PKT_MAX_SIZE < s then .crash else ODP.handle_agn_ tr st buf (sysbuf.take s)
      else if pkttype = TYPE_SND then
        if PKT_MAX_SIZE < s then .crash else ODP.handle_snd_ tr st buf (sysbuf.take s)
      else .ret (.fail .ProtocolError) st buf []

/-- A raw datagram as it arrives at the peer: 20-byte IP header (contents
irrelevant to the code) followed by the ICMP payload `sendto` built. -/
def wire (id : Nat) (f : List Nat) : List Nat :=
  List.replicate IP_SIZE 0 ++ icmp_sendto_data id f

/-- The endpoint state an outcome leaves behind (`crash` aborts the process;
the pre-call state is returned so the function is total). -/
def RecvRes.stateOf : RecvRes → ODP → ODP
  | .crash, st => st
  | .ret _ st' _ _, _ => st'

-- States of the C1 trace: A sends two payloads which B delivers; B's ACK(1)
-- raises A's `peer_seqnum` to 1 (`handle_ack_` line 125); B then sends its own
-- first two payloads and A silently drops the first one.
def c1_buf : List Nat := List.replicate 16 0

def c1_sA1 : ODP := (ODP.send trPerfect ODP.new [97]).2.1

def c1_sB1 : ODP :=
  (ODP.recv trPerfect 2 ODP.new c1_buf (wire 1 (sndFrame 0 [97])) true 0).stateOf ODP.new

def c1_sA2 : ODP := (ODP.send trPerfect c1_sA1 [98]).2.1

def c1_sB2 : ODP :=
  (ODP.recv trPerfect 2 c1_sB1 c1_buf (wire 1 (sndFrame 1 [98])) true 0).stateOf c1_sB1

def c1_sA3 : ODP :=
  (ODP.recv trPerfect 1 c1_sA2 c1_buf (wire 2 (ackFrame 1)) true 0).stateOf c1_sA2

def c1_sB3 : ODP := (ODP.send trPerfect c1_sB2 [120]).2.1

/-- The `icmp_data` binding of `recvfrom`: the datagram truncated to the
4096-byte scratch buffer, minus the 20-byte IP header. -/
def icmpOf (dgram : List Nat) : List Nat := (dgram.take (min dgram.length 4096)).drop IP_SIZE

/-- The `user_data` binding of `recvfrom`: `icmp_data` minus the 4-byte link
header. -/
def userOf (dgram : List Nat) : List Nat := (icmpOf dgram).drop PKT_HEADER.length

/-- A transport on which the control-frame emissions succeed: every ACK send
reports exactly `PKT_HDR_SIZE` bytes and every AGN send exactly 18. -/
def GoodCtl (tr : Transport) : Prop :=
  (∀ s, tr (ackFrame s) = .ok PKT_HDR_SIZE) ∧
  (∀ f t, tr (agnFrame f t) = .ok (PKT_HDR_SIZE + 8))

/-- The pair-sum without the u64 wrap, for reasoning; it agrees with
`icmp_accum` as long as the sum cannot overflow. -/
def icmp_accum_pure : List Nat → Nat → Nat → Nat
  | [], _, accum => accum
  | b :: rest, i, accum => icmp_accum_pure rest (i + 1) (accum + b * 2 ^ (8 * (i % 2)))

/-- A transport under which every frame at least `PKT_HDR_SIZE` long is
accepted with at least `PKT_HDR_SIZE` bytes reported — what a send needs in
order not to fail. -/
def GoodTr (tr : Transport) : Prop :=
  ∀ f, PKT_HDR_SIZE ≤ f.length → ∃ n, tr f = TrRes.ok n ∧ PKT_HDR_SIZE ≤ n

/-- One driver-visible operation on an endpoint: a `send` of a payload (with
the transport's response to it), or a `recv` with some inbound datagram. -/
inductive Op where
  | send (payload : List Nat) (tr : Transport)
  | deliver (dgram : List Nat) (srcIsPeer : Bool) (tr : Transport)

def stepOp (ownId : Nat) (st : ODP) : Op → ODP
  | .send p tr => (ODP.send tr st p).2.1
  | .deliver d sp tr =>
    (ODP.recv tr ownId st (List.replicate PKT_HDR_SIZE 0) d sp 0).stateOf st

def runOps (ownId : Nat) (st : ODP) (ops : List Op) : ODP := ops.foldl (stepOp ownId) st

/-- Every `send` operation of the trace runs over a transport that accepts
its frame. -/
def SendsOk : List Op → Prop
  | [] => True
  | Op.send _ tr :: rest => GoodTr tr ∧ SendsOk rest
  | Op.deliver _ _ _ :: rest => SendsOk rest

/-- How a receive step can change the send-side state: `seqnum` never moves,
and `ack_wait` is unchanged or pruned by a cumulative-ack filter (`retain
s > v` for an ACK, `retain s ≥ v` for an AGN). -/
def RecvShape (st st' : ODP) : Prop :=
  st'.seqnum = st.seqnum ∧
  (st'.ack_wait = st.ack_wait ∨
   (∃ v, st'.ack_wait = st.ack_wait.filter (fun p => v < p.1)) ∨
   (∃ v, st'.ack_wait = st.ack_wait.filter (fun p => v ≤ p.1)))

/-- The basic `unacked` invariant: strictly sorted by seqnum, within the
window, all seqnums below `next_seq`. -/
def InvB (st : ODP) : Prop :=
  List.Pairwise (fun p q : Nat × List Nat => p.1 < q.1) st.ack_wait ∧
  st.ack_wait.length ≤ WINDOW_SIZE ∧
  ∀ p ∈ st.ack_wait, p.1 < st.seqnum

/-- The gap-freedom invariant: the seqnums of `unacked` form a contiguous
run ending exactly at `next_seq`. -/
def InvG (st : ODP) : Prop :=
  ∃ a, st.ack_wait.map Prod.fst = List.range' a st.ack_wait.length ∧
       a + st.ack_wait.length = st.seqnum

-- A trace with a transport failure in the middle send: seq 1 is burned
-- without entering `ack_wait`.
def c8ops : List Op := [Op.send [97] trPerfect, Op.send [98] trZero, Op.send [99] trPerfect]

-- A fully successful trace: send, deliver the peer's ACK(0), send again.
def c8okops : List Op :=
  [Op.send [97] trPerfect, Op.deliver (wire 2 (ackFrame 0)) true trPerfect,
   Op.send [98] trPerfect]

-- States of the C9 scenario: two successful sends fill the window.
def c9_s1 : ODP := (ODP.send trPerfect ODP.new [104]).2.1

def c9_s2 : ODP := (ODP.send trPerfect c9_s1 [105]).2.1

/-- C1: the in-order-delivery guarantee fails on the code in bidirectional
traffic.  A (id 1) sends bytes 97 and 98; B (id 2) delivers both and acks;
processing B's ACK(1) sets A's `peer_seqnum` to 1 even though that counter
tracks the next sequence number expected *from* B.  When B then sends its own
payloads 120 (seq 0) and 121 (seq 1), A treats seq 0 as already delivered
(emitting a duplicate ACK) and delivers only 121.  The concatenation of A's
`recv` outputs is `[121]`, not a prefix of the `[120] ++ [121]` B passed to
`send`: byte 120 is lost with no gap signalled.  Every transport call
succeeds; no loss or reordering is involved. -/
theorem claim_C1_trace :
    (ODP.send trPerfect ODP.new [97]).1 = .accepted 1 ∧
    ODP.recv trPerfect 2 ODP.new c1_buf (wire 1 (sndFrame 0 [97])) true 0
      = .ret (.done (some 1)) c1_sB1 ([97] ++ List.replicate 15 0) [ackFrame 0] ∧
    (ODP.send trPerfect c1_sA1 [98]).1 = .accepted 1 ∧
    ODP.recv trPerfect 2 c1_sB1 c1_buf (wire 1 (sndFrame 1 [98])) true 0
      = .ret (.done (some 1)) c1_sB2 ([98] ++ List.replicate 15 0) [ackFrame 1] ∧
    ODP.recv trPerfect 1 c1_sA2 c1_buf (wire 2 (ackFrame 1)) true 0
      = .ret (.done none) c1_sA3 c1_buf [] ∧
    c1_sA3.peer_seqnum = 1 ∧
    (ODP.send trPerfect c1_sB2 [120]).1 = .accepted 1 ∧
    (ODP.send trPerfect c1_sB2 [120]).2.2 = [sndFrame 0 [120]] ∧
    ODP.recv trPerfect 1 c1_sA3 c1_buf (wire 2 (sndFrame 0 [120])) true 0
      = .ret (.done none) c1_sA3 c1_buf [ackFrame 1] ∧
    (ODP.send trPerfect c1_sB3 [121]).1 = .accepted 1 ∧
    (ODP.send trPerfect c1_sB3 [121]).2.2 = [sndFrame 1 [121]] ∧
    ODP.recv trPerfect 1 c1_sA3 c1_buf (wire 2 (sndFrame 1 [121])) true 0
      = .ret (.done (some 1)) ⟨2, 2, []⟩ ([121] ++ List.replicate 15 0) [ackFrame 1] ∧
    ([121] : List Nat) ≠ List.take 1 [120, 121] := by decide

/-- C3 counterexample: when `com.sendto` reports zero bytes, `send` returns
`SndError` but the state is *not* unchanged — `seqnum` was already
incremented (line 79 precedes the `sendto` match). -/
theorem claim_C3_counterexample :
    (ODP.send trZero ODP.new [97]).1 = .fail .SndError ∧
    (ODP.send trZero ODP.new [97]).2.1 ≠ ODP.new ∧
    (ODP.send trZero ODP.new [97]).2.1.seqnum = 1 := by decide

/-- C3 (amended): `send` returns `RemoteWindowFull` iff `|unacked| ≥
WINDOW_SIZE` at entry, and then the state is unchanged; on `SndError` or a
transport error `unacked` and `peer_seqnum` are unchanged but `next_seq` has
already been incremented; on success `next_seq` is incremented and the frame
appended to `unacked`. -/
theorem claim_C3_send_errors (tr : Transport) (st : ODP) (buf : List Nat) :
    ((ODP.send tr st buf).1 = .fail .RemoteWindowFull ↔ WINDOW_SIZE ≤ st.ack_wait.length) ∧
    (WINDOW_SIZE ≤ st.ack_wait.length → (ODP.send tr st buf).2.1 = st) ∧
    (∀ e, (ODP.send tr st buf).1 = .fail e → e ≠ ODPError.RemoteWindowFull →
       (ODP.send tr st buf).2.1.ack_wait = st.ack_wait ∧
       (ODP.send tr st buf).2.1.seqnum = (st.seqnum + 1) % U64 ∧
       (ODP.send tr st buf).2.1.peer_seqnum = st.peer_seqnum) ∧
    (∀ n, (ODP.send tr st buf).1 = .accepted n →
       (ODP.send tr st buf).2.1.seqnum = (st.seqnum + 1) % U64 ∧
       (ODP.send tr st buf).2.1.ack_wait = st.ack_wait ++ [(st.seqnum, sndFrame st.seqnum buf)]) := by
  unfold ODP.send
  by_cases hw : WINDOW_SIZE ≤ st.ack_wait.length
  · simp [hw]
  · cases htr : tr (sndFrame st.seqnum buf) with
    | err => simp [hw, htr]
    | ok n =>
      by_cases hn : n < PKT_HDR_SIZE
      · simp [hw, htr, hn]
      · simp [hw, htr, hn]

/-- C4 counterexample: the outbound type byte is not `0x08`, and an inbound
packet with type byte `0x08` (well-signed, from a third id) is rejected. -/
theorem claim_C4_counterexample :
    (icmp_sendto_data 1 [104, 105]).getD 0 99 ≠ 8 ∧
    (icmp_recvfrom 2 [0] (List.replicate IP_SIZE 0 ++ [8, 1, 0, 0, 42]) 0).1 = none := by decide

/-- C4 (amended): every outbound frame carries ICMP type byte `0x00` (Echo
Reply, per the comment in libs/icmp_communicator/src/lib.rs) at offset 0, in
both directions, and `recvfrom` accepts an inbound packet only if its type
byte equals `0x00`. -/
theorem claim_C4_type_byte :
    (∀ id payload, (icmp_sendto_data id payload).getD 0 99 = 0) ∧
    (∀ ownId buf dgram src, ((icmp_recvfrom ownId buf dgram src).1).isSome = true →
       ((dgram.take (min dgram.length 4096)).drop IP_SIZE).getD 0 0 = 0) := by
  constructor
  · intro id payload
    simp [icmp_sendto_data, PKT_HEADER, List.set, List.cons_append, List.getD]
  · intro ownId buf dgram src h
    by_cases h1 : min dgram.length 4096 < IP_SIZE + PKT_HEADER.length
    · simp [icmp_recvfrom, h1] at h
    · by_cases h2 : (dgram.take (min dgram.length 4096))[IP_SIZE]?.getD 0 = 0
      · simpa using h2
      · simp [icmp_recvfrom, h1, h2] at h

/-- C4 witness: the amended theorem applied at concrete inputs. -/
theorem claim_C4_witness :
    (icmp_sendto_data 3 [1, 2]).getD 0 99 = 0 ∧
    (((List.replicate IP_SIZE 0 ++ [0, 1, 0, 0, 7]).take
        (min (List.replicate IP_SIZE 0 ++ [0, 1, 0, 0, 7]).length 4096)).drop IP_SIZE).getD 0 0
      = 0 :=
  ⟨claim_C4_type_byte.1 3 [1, 2],
   claim_C4_type_byte.2 2 [9] (List.replicate IP_SIZE 0 ++ [0, 1, 0, 0, 7]) 0 (by decide)⟩

/-- C5: a 10-byte `G` frame from the configured peer passes the
`s < PKT_HDR_SIZE` check, and `handle_agn_` then reads the `to` field with
`read_u64(&agn[10..])` on an empty slice — a panic, not `ProtocolError`. -/
theorem claim_C5_short_agn_crash :
    ODP.recv trPerfect 2 ODP.new (List.replicate 16 0)
      (wire 1 [TYPE_AGN, 0, 0, 0, 0, 0, 0, 0, 0, 0]) true 0 = .crash := by decide

/-- `recvfrom` on a well-formed datagram from a peer with a foreign, non-zero
id: the filters pass and the user payload is reported at its true length. -/
theorem icmp_recvfrom_wire (ownId id c2 c3 : Nat) (buf f : List Nat) (src : Nat)
    (h1 : id ≠ 0) (h2 : id ≠ ownId) (hlen : f.length ≤ 4072) :
    icmp_recvfrom ownId buf (List.replicate IP_SIZE 0 ++ ([0, id, c2, c3] ++ f)) src =
      (some (f.length, src), (copy_buf buf f).1) := by
  have hmin : min (List.replicate IP_SIZE (0 : Nat) ++ ([0, id, c2, c3] ++ f)).length 4096
      = (List.replicate IP_SIZE (0 : Nat) ++ ([0, id, c2, c3] ++ f)).length := by
    apply Nat.min_eq_left
    simp [IP_SIZE]
    omega
  have hdrop : (List.replicate IP_SIZE (0 : Nat) ++ ([0, id, c2, c3] ++ f)).drop IP_SIZE
      = [0, id, c2, c3] ++ f := by
    conv_lhs =>
      rw [show (IP_SIZE : Nat) = (List.replicate IP_SIZE (0 : Nat)).length by simp]
    exact List.drop_left _ _
  have hszge : ¬ ((List.replicate IP_SIZE (0 : Nat) ++ ([0, id, c2, c3] ++ f)).length
      < IP_SIZE + PKT_HEADER.length) := by
    simp [IP_SIZE, PKT_HEADER]
  simp only [icmp_recvfrom, hmin, List.take_length, hdrop, if_neg hszge]
  simp [h1, h2, List.getD, PKT_HEADER]

/-- C10: the framer reports the true user-payload length (up to 4072 bytes)
while copying only what fits into ODP's 1480-byte `sysbuf`; for any inbound
SND-typed frame from the configured peer whose payload exceeds
`PKT_MAX_SIZE`, `ODP::recv`'s slice `&sysbuf[..s]` is out of bounds — a
panic, modelled as `crash`. -/
theorem claim_C10_oversize_crash (u : List Nat) (st : ODP) (buf : List Nat) (tr : Transport)
    (hty : u.getD 0 0 = TYPE_SND) (hlen : PKT_MAX_SIZE < u.length) (hcap : u.length ≤ 4072) :
    ODP.recv tr 2 st buf (List.replicate IP_SIZE 0 ++ ([0, 1, 0, 0] ++ u)) true 0 = .crash := by
  obtain ⟨b, u', rfl⟩ : ∃ b u', u = b :: u' := by
    cases u with
    | nil => simp [PKT_MAX_SIZE] at hlen
    | cons b u' => exact ⟨b, u', rfl⟩
  have hb : b = TYPE_SND := by simpa [List.getD] using hty
  simp only [PKT_MAX_SIZE, List.length_cons] at hlen
  have hrw := icmp_recvfrom_wire 2 1 0 0 (List.replicate PKT_MAX_SIZE 0) (b :: u') 0
    (by decide) (by decide) hcap
  have h0 : 0 < (List.take ((List.replicate PKT_MAX_SIZE (0 : Nat)).length ⊓
      (b :: u').length) (b :: u')).length := by
    simp [PKT_MAX_SIZE]
  have hp : ((copy_buf (List.replicate PKT_MAX_SIZE 0) (b :: u')).1).getD 0 0 = TYPE_SND := by
    simp only [copy_buf]
    rw [List.getD_append _ _ _ _ h0]
    simp [List.getD, List.getElem?_take, PKT_MAX_SIZE, hb]
  simp only [ODP.recv, hrw, hp]
  have hs10 : ¬ (u'.length + 1 < PKT_HDR_SIZE) := by
    simp only [PKT_HDR_SIZE]
    omega
  have hsbig : PKT_MAX_SIZE < u'.length + 1 := by
    simp only [PKT_MAX_SIZE]
    omega
  simp [hs10, hsbig, TYPE_SND, TYPE_ACK, TYPE_AGN]

/-- C10 witness: a concrete 1491-byte SND payload crashes the receiver. -/
theorem claim_C10_witness :
    ((TYPE_SND :: List.replicate 1490 0 : List Nat).getD 0 0 = TYPE_SND ∧
     PKT_MAX_SIZE < (TYPE_SND :: List.replicate 1490 0 : List Nat).length ∧
     (TYPE_SND :: List.replicate 1490 0 : List Nat).length ≤ 4072) ∧
    ODP.recv trPerfect 2 ODP.new [0]
      (List.replicate IP_SIZE 0 ++ ([0, 1, 0, 0] ++ (TYPE_SND :: List.replicate 1490 0)))
      true 0 = .crash :=
  ⟨⟨by simp [List.getD], by simp [PKT_MAX_SIZE], by simp⟩,
   claim_C10_oversize_crash _ ODP.new [0] trPerfect (by simp [List.getD])
     (by simp [PKT_MAX_SIZE]) (by simp)⟩

/-- C7 counterexample: a 24-byte datagram with ICMP type byte `0x08`,
signature 5 (non-zero, not the receiver's id 1) satisfies every "otherwise"
condition of the claim, which therefore predicts `some (0, 3)`; `recvfrom`
returns "no message" because of the type filter the claim omits. -/
theorem claim_C7_counterexample :
    (icmp_recvfrom 1 [0, 0] (List.replicate IP_SIZE 0 ++ [8, 5, 0, 0]) 3).1 = none ∧
    (icmp_recvfrom 1 [0, 0] (List.replicate IP_SIZE 0 ++ [8, 5, 0, 0]) 3).1 ≠ some (0, 3) := by
  decide

/-- C7 (amended): `recvfrom` returns "no message" whenever the datagram is
shorter than 24 bytes, *or its ICMP type byte is non-zero*, or the
signature/id byte is zero, or the id byte equals the receiver's own id;
otherwise it copies `min |buf| |payload|` bytes into `buf` and returns the
true payload length together with the source address. -/
theorem claim_C7_recvfrom_filters (ownId : Nat) (buf dgram : List Nat) (src : Nat) :
    (min dgram.length 4096 < IP_SIZE + PKT_HEADER.length ∨
     (icmpOf dgram).getD 0 0 ≠ 0 ∨
     (icmpOf dgram).getD 1 0 = 0 ∨
     (icmpOf dgram).getD 1 0 = ownId →
       icmp_recvfrom ownId buf dgram src = (none, buf)) ∧
    (IP_SIZE + PKT_HEADER.length ≤ min dgram.length 4096 →
     (icmpOf dgram).getD 0 0 = 0 →
     (icmpOf dgram).getD 1 0 ≠ 0 →
     (icmpOf dgram).getD 1 0 ≠ ownId →
       icmp_recvfrom ownId buf dgram src =
         (some ((userOf dgram).length, src),
          (userOf dgram).take (min buf.length (userOf dgram).length) ++
            buf.drop (min buf.length (userOf dgram).length))) := by
  constructor
  · intro h
    simp only [icmpOf, List.getD_eq_getElem?_getD, List.getElem?_drop, Nat.add_zero] at h
    rcases h with h | h | h | h
    · simp [icmp_recvfrom, h]
    · by_cases h1 : min dgram.length 4096 < IP_SIZE + PKT_HEADER.length
      · simp [icmp_recvfrom, h1]
      · simp [icmp_recvfrom, h1, h]
    · by_cases h1 : min dgram.length 4096 < IP_SIZE + PKT_HEADER.length
      · simp [icmp_recvfrom, h1]
      · by_cases h2 : (dgram.take (min dgram.length 4096))[IP_SIZE]?.getD 0 = 0
        · simp [icmp_recvfrom, h1, h2, h]
        · simp [icmp_recvfrom, h1, h2]
    · by_cases h1 : min dgram.length 4096 < IP_SIZE + PKT_HEADER.length
      · simp [icmp_recvfrom, h1]
      · by_cases h2 : (dgram.take (min dgram.length 4096))[IP_SIZE]?.getD 0 = 0
        · by_cases h3 : (dgram.take (min dgram.length 4096))[IP_SIZE + 1]?.getD 0 = 0
          · simp [icmp_recvfrom, h1, h2, h3]
          · simp [icmp_recvfrom, h1, h2, h3, h]
        · simp [icmp_recvfrom, h1, h2]
  · intro h1 h2 h3 h4
    simp only [icmpOf, List.getD_eq_getElem?_getD, List.getElem?_drop, Nat.add_zero]
      at h2 h3 h4
    simp only [userOf, icmpOf]
    simp [icmp_recvfrom, Nat.not_lt.mpr h1, h2, h3, h4, copy_buf]

/-- C7 witness: both parts of the amended theorem at concrete inputs — a
zero-signature datagram is refused; an accepted one returns the true length
and source. -/
theorem claim_C7_witness :
    icmp_recvfrom 1 [7, 7] (List.replicate IP_SIZE 0 ++ [0, 0, 0, 0, 42]) 9 = (none, [7, 7]) ∧
    icmp_recvfrom 1 [7, 7] (List.replicate IP_SIZE 0 ++ [0, 5, 9, 9, 42, 43, 44]) 9 =
      (some ((userOf (List.replicate IP_SIZE 0 ++ [0, 5, 9, 9, 42, 43, 44])).length, 9),
       (userOf (List.replicate IP_SIZE 0 ++ [0, 5, 9, 9, 42, 43, 44])).take
           (min ([7, 7] : List Nat).length
             (userOf (List.replicate IP_SIZE 0 ++ [0, 5, 9, 9, 42, 43, 44])).length) ++
         ([7, 7] : List Nat).drop
           (min ([7, 7] : List Nat).length
             (userOf (List.replicate IP_SIZE 0 ++ [0, 5, 9, 9, 42, 43, 44])).length)) :=
  ⟨(claim_C7_recvfrom_filters 1 [7, 7] (List.replicate IP_SIZE 0 ++ [0, 0, 0, 0, 42]) 9).1
     (by right; right; left; decide),
   (claim_C7_recvfrom_filters 1 [7, 7] (List.replicate IP_SIZE 0 ++ [0, 5, 9, 9, 42, 43, 44]) 9).2
     (by decide) (by decide) (by decide) (by decide)⟩

theorem goodCtl_trPerfect : GoodCtl trPerfect := by
  constructor
  · intro s
    simp [trPerfect, ackFrame, u64le, PKT_HDR_SIZE]
  · intro f t
    simp [trPerfect, agnFrame, u64le, PKT_HDR_SIZE]

theorem readU64Opt_of_le (l : List Nat) (h : PKT_HDR_SIZE ≤ l.length) :
    readU64Opt l 2 = some (readU64 l 2) := by
  unfold readU64Opt
  rw [if_pos]
  simp only [PKT_HDR_SIZE] at h
  omega

/-- C2: dispatch of a well-formed SND frame from the configured peer
(`handle_snd_`).  With `s` the frame's sequence number: if `s < peer_seq` the
endpoint re-emits `ACK(peer_seq)`, delivers nothing and is unchanged; if
`s = peer_seq` it emits `ACK(peer_seq)`, increments `peer_seq` (u64
arithmetic) and returns `min |buf| |payload|` bytes copied into `buf`; if
`s > peer_seq` it emits `AGN(peer_seq, s)`, delivers nothing and is
unchanged. -/
theorem claim_C2_snd_cases (tr : Transport) (st : ODP) (buf frame : List Nat)
    (hty : frame.getD 0 0 = TYPE_SND) (hlen : PKT_HDR_SIZE ≤ frame.length)
    (hctl : GoodCtl tr) :
    (readU64 frame 2 < st.peer_seqnum →
       ODP.recv_frame tr st buf frame
         = .ret (.done none) st buf [ackFrame st.peer_seqnum]) ∧
    (readU64 frame 2 = st.peer_seqnum →
       ODP.recv_frame tr st buf frame
         = .ret (.done (some (min buf.length (frame.length - PKT_HDR_SIZE))))
             { st with peer_seqnum := (st.peer_seqnum + 1) % U64 }
             ((frame.drop PKT_HDR_SIZE).take (min buf.length (frame.length - PKT_HDR_SIZE)) ++
               buf.drop (min buf.length (frame.length - PKT_HDR_SIZE)))
             [ackFrame st.peer_seqnum]) ∧
    (st.peer_seqnum < readU64 frame 2 →
       ODP.recv_frame tr st buf frame
         = .ret (.done none) st buf [agnFrame st.peer_seqnum (readU64 frame 2)]) := by
  have hread : readU64Opt frame 2 = some (readU64 frame 2) := readU64Opt_of_le frame hlen
  have hack : ODP.send_ack_ tr st.peer_seqnum = none := by
    unfold ODP.send_ack_
    rw [hctl.1]
    simp
  have hagn : ODP.send_agn_ tr st.peer_seqnum (readU64 frame 2) = none := by
    unfold ODP.send_agn_
    rw [hctl.2]
    simp
  have hrecv : ODP.recv_frame tr st buf frame = ODP.handle_snd_ tr st buf frame := by
    unfold ODP.recv_frame
    rw [if_neg (by omega)]
    have hty' : frame[0]?.getD 0 = TYPE_SND := by
      simpa [List.getD_eq_getElem?_getD] using hty
    simp [hty', TYPE_SND, TYPE_ACK, TYPE_AGN]
  refine ⟨?_, ?_, ?_⟩
  · intro hlt
    rw [hrecv]
    unfold ODP.handle_snd_
    rw [hread]
    simp [hlt, hack]
  · intro heq
    rw [hrecv]
    unfold ODP.handle_snd_
    rw [hread]
    simp [heq, hack, copy_buf]
  · intro hgt
    rw [hrecv]
    unfold ODP.handle_snd_
    rw [hread]
    simp [Nat.not_lt.mpr (Nat.le_of_lt hgt), Nat.ne_of_gt hgt, hack, hagn]

/-- C2 witness: a concrete already-delivered SND (seq 3 < peer_seq 5) is
re-acked and nothing is delivered. -/
theorem claim_C2_witness :
    ((sndFrame 3 [7]).getD 0 0 = TYPE_SND ∧ PKT_HDR_SIZE ≤ (sndFrame 3 [7]).length ∧
     readU64 (sndFrame 3 [7]) 2 < (⟨0, 5, []⟩ : ODP).peer_seqnum) ∧
    ODP.recv_frame trPerfect ⟨0, 5, []⟩ [9, 9] (sndFrame 3 [7])
      = .ret (.done none) ⟨0, 5, []⟩ [9, 9] [ackFrame 5] :=
  ⟨⟨by decide, by decide, by decide⟩,
   (claim_C2_snd_cases trPerfect ⟨0, 5, []⟩ [9, 9] (sndFrame 3 [7]) (by decide) (by decide)
     goodCtl_trPerfect).1 (by decide)⟩

theorem byte_shift_le (b i : Nat) (hb : b < 256) : b * 2 ^ (8 * (i % 2)) ≤ 65280 := by
  have h2 : (2 : Nat) ^ (8 * (i % 2)) ≤ 256 := by
    rcases Nat.mod_two_eq_zero_or_one i with h | h <;> rw [h] <;> norm_num
  calc b * 2 ^ (8 * (i % 2)) ≤ 255 * 256 := Nat.mul_le_mul (by omega) h2
    _ = 65280 := by norm_num

theorem icmp_accum_pure_le (l : List Nat) (hb : ∀ b ∈ l, b < 256) :
    ∀ i a, icmp_accum_pure l i a ≤ a + 65280 * l.length := by
  induction l with
  | nil => intro i a; simp [icmp_accum_pure]
  | cons b rest ih =>
    intro i a
    have hb' : ∀ x ∈ rest, x < 256 := fun x hx => hb x (List.mem_cons_of_mem _ hx)
    have hbb : b < 256 := hb b (List.mem_cons_self b rest)
    calc icmp_accum_pure (b :: rest) i a
        = icmp_accum_pure rest (i + 1) (a + b * 2 ^ (8 * (i % 2))) := rfl
      _ ≤ a + b * 2 ^ (8 * (i % 2)) + 65280 * rest.length := ih hb' _ _
      _ ≤ a + 65280 * (b :: rest).length := by
          have := byte_shift_le b i hbb
          simp only [List.length_cons]
          omega

theorem icmp_accum_eq_pure (l : List Nat) (hb : ∀ b ∈ l, b < 256) :
    ∀ i a, a + 65280 * l.length < U64 → icmp_accum l i a = icmp_accum_pure l i a := by
  induction l with
  | nil => intro i a _; rfl
  | cons b rest ih =>
    intro i a h
    have hbb : b < 256 := hb b (List.mem_cons_self b rest)
    have hb' : ∀ x ∈ rest, x < 256 := fun x hx => hb x (List.mem_cons_of_mem _ hx)
    have hx : b * 2 ^ (8 * (i % 2)) ≤ 65280 := byte_shift_le b i hbb
    have hlen : (b :: rest).length = rest.length + 1 := List.length_cons b rest
    have hmod : (a + b * 2 ^ (8 * (i % 2))) % U64 = a + b * 2 ^ (8 * (i % 2)) := by
      apply Nat.mod_eq_of_lt
      rw [hlen] at h
      omega
    simp only [icmp_accum, icmp_accum_pure, hmod]
    apply ih hb'
    rw [hlen] at h
    omega

theorem icmp_accum_pure_from_zero (l : List Nat) (i d : Nat)
    (h : icmp_accum_pure l i (0 + d) = icmp_accum_pure l i 0 + d) :
    icmp_accum_pure l i d = icmp_accum_pure l i 0 + d := by
  simpa using h

theorem icmp_accum_pure_add (l : List Nat) :
    ∀ i a d, icmp_accum_pure l i (a + d) = icmp_accum_pure l i a + d := by
  induction l with
  | nil => intros; rfl
  | cons b rest ih =>
    intro i a d
    simp only [icmp_accum_pure]
    rw [Nat.add_right_comm a d (b * 2 ^ (8 * (i % 2)))]
    exact ih _ _ _

theorem fold16_go_lt (fuel : Nat) : ∀ a, a ≤ fuel → fold16_go fuel a < 2 ^ 16 := by
  induction fuel with
  | zero =>
    intro a h
    simp only [fold16_go]
    omega
  | succ n ih =>
    intro a h
    simp only [fold16_go]
    split
    · next hgt =>
      apply ih
      have hd := Nat.div_add_mod a (2 ^ 16)
      have h16 : (2 : Nat) ^ 16 = 65536 := by norm_num
      rw [h16] at hd hgt ⊢
      omega
    · next hle =>
      have h16 : (2 : Nat) ^ 16 = 65536 := by norm_num
      rw [h16] at hle ⊢
      omega

theorem fold16_go_modeq (fuel : Nat) : ∀ a, a ≤ fuel → fold16_go fuel a ≡ a [MOD 65535] := by
  induction fuel with
  | zero =>
    intro a _
    rfl
  | succ n ih =>
    intro a h
    simp only [fold16_go]
    split
    · next hgt =>
      have hd := Nat.div_add_mod a (2 ^ 16)
      have h16 : (2 : Nat) ^ 16 = 65536 := by norm_num
      rw [h16] at hd hgt
      have hrec : fold16_go n (a % 2 ^ 16 + a / 2 ^ 16)
          ≡ a % 2 ^ 16 + a / 2 ^ 16 [MOD 65535] := by
        apply ih
        rw [h16]
        omega
      refine hrec.trans ?_
      show (a % 2 ^ 16 + a / 2 ^ 16) % 65535 = a % 65535
      conv_rhs => rw [← hd]
      rw [show 65536 * (a / 65536) + a % 65536
            = (a % 2 ^ 16 + a / 2 ^ 16) + 65535 * (a / 65536) by rw [h16]; ring]
      rw [Nat.add_mul_mod_self_left]
    · next hle => rfl

theorem fold16_go_le (fuel : Nat) : ∀ a, a ≤ fuel → fold16_go fuel a ≤ a := by
  induction fuel with
  | zero =>
    intro a _
    exact Nat.le_refl (fold16_go 0 a)
  | succ n ih =>
    intro a h
    simp only [fold16_go]
    split
    · next hgt =>
      have hd := Nat.div_add_mod a (2 ^ 16)
      have h16 : (2 : Nat) ^ 16 = 65536 := by norm_num
      rw [h16] at hd hgt
      refine le_trans (ih _ ?_) ?_ <;> rw [h16] <;> omega
    · next hle => exact le_refl a

theorem fold16_go_pos (fuel : Nat) : ∀ a, a ≤ fuel → 0 < a → 0 < fold16_go fuel a := by
  induction fuel with
  | zero =>
    intro a h hpos
    simp only [fold16_go]
    omega
  | succ n ih =>
    intro a h hpos
    simp only [fold16_go]
    split
    · next hgt =>
      have hd := Nat.div_add_mod a (2 ^ 16)
      have h16 : (2 : Nat) ^ 16 = 65536 := by norm_num
      rw [h16] at hd hgt
      apply ih <;> rw [h16] <;> omega
    · next hle => exact hpos

/-- C6: checksum round-trip.  For every payload (of bytes, of any size the
IPv4 layer can carry), the frame emitted by `sendto` — 4-byte header with the
checksum bytes filled in at offsets 2 and 3, followed by the payload —
verifies under the Internet checksum: recomputing the little-endian pair-sum
with carry folding over all emitted bytes, checksum field included, and
one's-complementing the result yields zero. -/
theorem claim_C6_checksum_roundtrip (id : Nat) (payload : List Nat)
    (hid : id < 256) (hb : ∀ b ∈ payload, b < 256) (hlen : payload.length ≤ 65503) :
    icmp_verify (icmp_sendto_data id payload) = 0 := by
  have h64 : U64 = 18446744073709551616 := by norm_num [U64]
  have hmem0 : ∀ b ∈ (0 :: id :: 0 :: 0 :: payload : List Nat), b < 256 := by
    intro b hbm
    simp only [List.mem_cons] at hbm
    rcases hbm with rfl | rfl | rfl | rfl | hm
    · omega
    · omega
    · omega
    · omega
    · exact hb b hm
  -- the zero-checksum frame and its pair-sum
  have hP := icmp_accum_pure_le payload hb 4 0
  set P := icmp_accum_pure payload 4 0 with hPdef
  have hS0 : icmp_accum (0 :: id :: 0 :: 0 :: payload) 0 0
      = icmp_accum_pure (0 :: id :: 0 :: 0 :: payload) 0 0 := by
    apply icmp_accum_eq_pure _ hmem0
    simp only [List.length_cons, U64]
    omega
  have hS1 : icmp_accum_pure (0 :: id :: 0 :: 0 :: payload) 0 0 = P + id * 256 := by
    show icmp_accum_pure payload 4
        (0 + 0 * 2 ^ (8 * (0 % 2)) + id * 2 ^ (8 * (1 % 2)) + 0 * 2 ^ (8 * (2 % 2))
          + 0 * 2 ^ (8 * (3 % 2))) = P + id * 256
    norm_num
    rw [icmp_accum_pure_from_zero payload 4 (id * 256) (icmp_accum_pure_add payload 4 0 _),
      ← hPdef]
  -- the checksum value the code stores
  set F := fold16_go (icmp_accum (0 :: id :: 0 :: 0 :: payload) 0 0)
      (icmp_accum (0 :: id :: 0 :: 0 :: payload) 0 0) with hFdef
  have hFS : F = fold16_go (P + id * 256) (P + id * 256) := by rw [hFdef, hS0, hS1]
  have hFlt : F < 2 ^ 16 := by rw [hFS]; exact fold16_go_lt _ _ (le_refl _)
  have hFle : F ≤ P + id * 256 := by rw [hFS]; exact fold16_go_le _ _ (le_refl _)
  have hFmod : F ≡ P + id * 256 [MOD 65535] := by
    rw [hFS]; exact fold16_go_modeq _ _ (le_refl _)
  have h16 : (2 : Nat) ^ 16 = 65536 := by norm_num
  rw [h16] at hFlt
  -- the two stored checksum bytes reassemble to 65535 - F
  have hc23 : ((U64 - 1) - F) % 256 + 256 * (((U64 - 1) - F) / 256 % 256) = 65535 - F := by
    rw [h64]
    omega
  -- the emitted frame in cons form
  have hdata : PKT_HEADER.set 1 id ++ payload = 0 :: id :: 0 :: 0 :: payload := rfl
  have hsetform : ∀ x y : Nat, ((0 :: id :: 0 :: 0 :: payload).set 2 x).set 3 y
      = 0 :: id :: x :: y :: payload := fun x y => rfl
  have hframe : icmp_sendto_data id payload
      = 0 :: id :: (((U64 - 1) - F) % 256) :: (((U64 - 1) - F) / 256 % 256) :: payload := by
    simp only [icmp_sendto_data, icmp_checksum, hdata, ← hFdef, hsetform]
  rw [hframe]
  -- the pair-sum of the emitted frame
  set c2 := ((U64 - 1) - F) % 256 with hc2def
  set c3 := ((U64 - 1) - F) / 256 % 256 with hc3def
  have hc2lt : c2 < 256 := Nat.mod_lt _ (by norm_num)
  have hc3lt : c3 < 256 := Nat.mod_lt _ (by norm_num)
  have hmemT : ∀ b ∈ (0 :: id :: c2 :: c3 :: payload : List Nat), b < 256 := by
    intro b hbm
    simp only [List.mem_cons] at hbm
    rcases hbm with rfl | rfl | rfl | rfl | hm
    · omega
    · omega
    · omega
    · omega
    · exact hb b hm
  have hT0 : icmp_accum (0 :: id :: c2 :: c3 :: payload) 0 0
      = icmp_accum_pure (0 :: id :: c2 :: c3 :: payload) 0 0 := by
    apply icmp_accum_eq_pure _ hmemT
    simp only [List.length_cons, U64]
    omega
  have hT1 : icmp_accum_pure (0 :: id :: c2 :: c3 :: payload) 0 0
      = P + (id * 256 + (c2 + c3 * 256)) := by
    show icmp_accum_pure payload 4
        (0 + 0 * 2 ^ (8 * (0 % 2)) + id * 2 ^ (8 * (1 % 2)) + c2 * 2 ^ (8 * (2 % 2))
          + c3 * 2 ^ (8 * (3 % 2))) = P + (id * 256 + (c2 + c3 * 256))
    norm_num
    rw [icmp_accum_pure_from_zero payload 4 (id * 256 + c2 + c3 * 256)
        (icmp_accum_pure_add payload 4 0 _), ← hPdef]
    ring
  have hTval : icmp_accum (0 :: id :: c2 :: c3 :: payload) 0 0
      = (P + id * 256) + (65535 - F) := by
    rw [hT0, hT1]
    have : c2 + c3 * 256 = 65535 - F := by
      rw [hc2def, hc3def]
      omega
    rw [this]
    ring
  -- the verification sum is a positive multiple of 65535 below 65536
  show (2 ^ 16 - 1) - fold16_go (icmp_accum (0 :: id :: c2 :: c3 :: payload) 0 0)
      (icmp_accum (0 :: id :: c2 :: c3 :: payload) 0 0) = 0
  rw [hTval]
  set T := (P + id * 256) + (65535 - F) with hTdef
  have hTpos : 0 < T := by omega
  have hF2lt : fold16_go T T < 2 ^ 16 := fold16_go_lt _ _ (le_refl _)
  have hF2pos : 0 < fold16_go T T := fold16_go_pos _ _ (le_refl _) hTpos
  have hF2mod : fold16_go T T ≡ T [MOD 65535] := fold16_go_modeq _ _ (le_refl _)
  have hT65535 : T % 65535 = 0 := by
    have h1 : (P + id * 256 + (65535 - F)) % 65535 = (F + (65535 - F)) % 65535 :=
      Nat.ModEq.add_right (65535 - F) hFmod.symm
    rw [hTdef, h1, show F + (65535 - F) = 65535 by omega]
  have hdvd : 65535 ∣ fold16_go T T := by
    have : fold16_go T T % 65535 = 0 := by
      have := hF2mod
      unfold Nat.ModEq at this
      omega
    omega
  have hge : 65535 ≤ fold16_go T T := Nat.le_of_dvd hF2pos hdvd
  rw [h16] at hF2lt
  omega

/-- C6 witness: the round-trip theorem at a concrete id and payload. -/
theorem claim_C6_witness :
    ((5 : Nat) < 256 ∧ (∀ b ∈ ([1, 2, 250] : List Nat), b < 256) ∧
      ([1, 2, 250] : List Nat).length ≤ 65503) ∧
    icmp_verify (icmp_sendto_data 5 [1, 2, 250]) = 0 :=
  ⟨⟨by norm_num, by decide, by norm_num⟩,
   claim_C6_checksum_roundtrip 5 [1, 2, 250] (by norm_num) (by decide) (by norm_num)⟩

theorem handle_ack_shape (st : ODP) (buf ack : List Nat) :
    RecvShape st ((ODP.handle_ack_ st buf ack).stateOf st) := by
  rcases h2 : readU64Opt ack 2 with _ | v <;> simp only [ODP.handle_ack_, h2]
  · exact ⟨rfl, Or.inl rfl⟩
  · exact ⟨rfl, Or.inr (Or.inl ⟨v, rfl⟩)⟩

theorem handle_snd_shape (tr : Transport) (st : ODP) (buf snd : List Nat) :
    RecvShape st ((ODP.handle_snd_ tr st buf snd).stateOf st) := by
  rcases h2 : readU64Opt snd 2 with _ | v <;> simp only [ODP.handle_snd_, h2]
  · exact ⟨rfl, Or.inl rfl⟩
  · by_cases hlt : v < st.peer_seqnum
    · simp only [if_pos hlt]
      rcases ha : ODP.send_ack_ tr st.peer_seqnum with _ | e <;> simp only [ha] <;>
        exact ⟨rfl, Or.inl rfl⟩
    · simp only [if_neg hlt]
      by_cases heq : v = st.peer_seqnum
      · simp only [if_pos heq]
        rcases ha : ODP.send_ack_ tr st.peer_seqnum with _ | e <;> simp only [ha] <;>
          exact ⟨rfl, Or.inl rfl⟩
      · simp only [if_neg heq]
        rcases ha : ODP.send_agn_ tr st.peer_seqnum v with _ | e <;> simp only [ha] <;>
          exact ⟨rfl, Or.inl rfl⟩

theorem handle_agn_shape (tr : Transport) (st : ODP) (buf agn : List Nat) :
    RecvShape st ((ODP.handle_agn_ tr st buf agn).stateOf st) := by
  rcases h2 : readU64Opt agn 2 with _ | f <;> rcases h10 : readU64Opt agn 10 with _ | t <;>
    simp only [ODP.handle_agn_, h2, h10]
  · exact ⟨rfl, Or.inl rfl⟩
  · exact ⟨rfl, Or.inl rfl⟩
  · exact ⟨rfl, Or.inl rfl⟩
  · by_cases hft : t < f
    · simp only [if_pos hft]
      exact ⟨rfl, Or.inl rfl⟩
    · simp only [if_neg hft]
      split
      · exact ⟨rfl, Or.inr (Or.inr ⟨f, rfl⟩)⟩
      · exact ⟨rfl, Or.inr (Or.inr ⟨f, rfl⟩)⟩

theorem recv_shape (tr : Transport) (ownId : Nat) (st : ODP) (buf dgram : List Nat)
    (sp : Bool) (src : Nat) :
    RecvShape st ((ODP.recv tr ownId st buf dgram sp src).stateOf st) := by
  have hrefl : RecvShape st st := ⟨rfl, Or.inl rfl⟩
  rcases h : (icmp_recvfrom ownId (List.replicate PKT_MAX_SIZE 0) dgram src).1 with _ | ⟨s, a⟩
  · simp only [ODP.recv, h]
    exact hrefl
  · simp only [ODP.recv, h]
    split
    · exact hrefl
    · split
      · exact hrefl
      · split
        · split
          · exact hrefl
          · exact handle_ack_shape _ _ _
        · split
          · split
            · exact hrefl
            · exact handle_agn_shape _ _ _ _
          · split
            · split
              · exact hrefl
              · exact handle_snd_shape _ _ _ _
            · exact hrefl

theorem sndFrame_length (s : Nat) (b : List Nat) :
    PKT_HDR_SIZE ≤ (sndFrame s b).length := by
  simp [sndFrame, u64le, PKT_HDR_SIZE]

theorem map_fst_filter {α β : Type} (P : α → Bool) (l : List (α × β)) :
    (l.filter (fun p => P p.1)).map Prod.fst = (l.map Prod.fst).filter P := by
  induction l with
  | nil => rfl
  | cons x rest ih =>
    by_cases h : P x.1
    · simp [List.filter_cons, h, ih]
    · simp [List.filter_cons, h, ih]

theorem filter_mono_range' (P : Nat → Bool) (hP : ∀ x y, x ≤ y → P x = true → P y = true) :
    ∀ k a, ∃ j, j ≤ k ∧ (List.range' a k).filter P = List.range' (a + j) (k - j) := by
  intro k
  induction k with
  | zero => intro a; exact ⟨0, Nat.le_refl 0, rfl⟩
  | succ m ih =>
    intro a
    by_cases hpa : P a = true
    · refine ⟨0, Nat.zero_le _, ?_⟩
      have hall : ∀ x ∈ List.range' a (m + 1), P x = true := by
        intro x hx
        rw [List.mem_range'_1] at hx
        exact hP a x hx.1 hpa
      rw [List.filter_eq_self.mpr hall]
      simp
    · rw [List.range'_succ, List.filter_cons_of_neg hpa]
      obtain ⟨j, hj, hf⟩ := ih (a + 1)
      refine ⟨j + 1, by omega, ?_⟩
      rw [hf, show a + 1 + j = a + (j + 1) by omega, show m - j = m + 1 - (j + 1) by omega]

theorem invB_of_shape (st st' : ODP) (h : InvB st) (hs : RecvShape st st') : InvB st' := by
  obtain ⟨hseq, hw⟩ := hs
  obtain ⟨h1, h2, h3⟩ := h
  rcases hw with hw | ⟨v, hw⟩ | ⟨v, hw⟩
  · exact ⟨hw ▸ h1, hw ▸ h2, by rw [hw, hseq]; exact h3⟩
  · refine ⟨hw ▸ h1.filter _, ?_, ?_⟩
    · rw [hw]
      exact le_trans (List.length_filter_le _ _) h2
    · rw [hw, hseq]
      intro p hp
      exact h3 p (List.mem_of_mem_filter hp)
  · refine ⟨hw ▸ h1.filter _, ?_, ?_⟩
    · rw [hw]
      exact le_trans (List.length_filter_le _ _) h2
    · rw [hw, hseq]
      intro p hp
      exact h3 p (List.mem_of_mem_filter hp)

theorem invG_of_filter (st st' : ODP) (h : InvG st) (hseq : st'.seqnum = st.seqnum)
    (P : Nat → Bool) (hP : ∀ x y, x ≤ y → P x = true → P y = true)
    (hw : st'.ack_wait = st.ack_wait.filter (fun p => P p.1)) : InvG st' := by
  obtain ⟨a, hmap, hsum⟩ := h
  have h1 : (st.ack_wait.filter (fun p => P p.1)).map Prod.fst
      = (st.ack_wait.map Prod.fst).filter P := map_fst_filter P st.ack_wait
  rw [hmap] at h1
  obtain ⟨j, hj, hf⟩ := filter_mono_range' P hP st.ack_wait.length a
  rw [hf] at h1
  have hlen : st'.ack_wait.length = st.ack_wait.length - j := by
    rw [hw]
    have h2 := congrArg List.length h1
    rwa [List.length_map, List.length_range'] at h2
  refine ⟨a + j, ?_, ?_⟩
  · rw [hlen, hw, h1]
  · rw [hlen, hseq]
    omega

theorem invG_of_shape (st st' : ODP) (h : InvG st) (hs : RecvShape st st') : InvG st' := by
  obtain ⟨hseq, hw⟩ := hs
  rcases hw with hw | ⟨v, hw⟩ | ⟨v, hw⟩
  · obtain ⟨a, hmap, hsum⟩ := h
    refine ⟨a, ?_, ?_⟩
    · rw [hw]; exact hmap
    · rw [hw, hseq]; exact hsum
  · exact invG_of_filter st st' h hseq (fun x => decide (v < x))
      (by intro x y hxy hx; simp at hx ⊢; omega) hw
  · exact invG_of_filter st st' h hseq (fun x => decide (v ≤ x))
      (by intro x y hxy hx; simp at hx ⊢; omega) hw

theorem send_state (tr : Transport) (st : ODP) (p : List Nat) :
    (WINDOW_SIZE ≤ st.ack_wait.length ∧ (ODP.send tr st p).2.1 = st) ∨
    (st.ack_wait.length < WINDOW_SIZE ∧
     (ODP.send tr st p).2.1.seqnum = (st.seqnum + 1) % U64 ∧
     (ODP.send tr st p).2.1.peer_seqnum = st.peer_seqnum ∧
     ((ODP.send tr st p).2.1.ack_wait = st.ack_wait ∨
      (ODP.send tr st p).2.1.ack_wait = st.ack_wait ++ [(st.seqnum, sndFrame st.seqnum p)])) := by
  by_cases hw : WINDOW_SIZE ≤ st.ack_wait.length
  · left
    refine ⟨hw, ?_⟩
    unfold ODP.send
    simp [hw]
  · right
    refine ⟨by omega, ?_⟩
    unfold ODP.send
    rcases htr : tr (sndFrame st.seqnum p) with _ | n
    · simp [hw, htr]
    · by_cases hn : n < PKT_HDR_SIZE
      · simp [hw, htr, hn]
      · simp [hw, htr, hn]

theorem send_state_good (tr : Transport) (st : ODP) (p : List Nat) (hg : GoodTr tr)
    (hw : st.ack_wait.length < WINDOW_SIZE) :
    (ODP.send tr st p).2.1.seqnum = (st.seqnum + 1) % U64 ∧
    (ODP.send tr st p).2.1.ack_wait = st.ack_wait ++ [(st.seqnum, sndFrame st.seqnum p)] := by
  obtain ⟨n, hok, hn⟩ := hg (sndFrame st.seqnum p) (sndFrame_length st.seqnum p)
  unfold ODP.send
  simp [Nat.not_le.mpr hw, hok, Nat.not_lt.mpr hn]

theorem invB_send (tr : Transport) (st : ODP) (p : List Nat) (h : InvB st)
    (hnw : st.seqnum + 1 < U64) :
    InvB (ODP.send tr st p).2.1 ∧ (ODP.send tr st p).2.1.seqnum ≤ st.seqnum + 1 := by
  obtain ⟨h1, h2, h3⟩ := h
  rcases send_state tr st p with ⟨hw, hst⟩ | ⟨hw, hseq, _, hwait⟩
  · rw [hst]
    exact ⟨⟨h1, h2, h3⟩, Nat.le_succ _⟩
  · have hseq' : (ODP.send tr st p).2.1.seqnum = st.seqnum + 1 := by
      rw [hseq, Nat.mod_eq_of_lt hnw]
    refine ⟨⟨?_, ?_, ?_⟩, by omega⟩
    · rcases hwait with hwait | hwait
      · exact hwait ▸ h1
      · rw [hwait, List.pairwise_append]
        refine ⟨h1, List.pairwise_singleton _ _, ?_⟩
        intro x hx y hy
        simp only [List.mem_singleton] at hy
        rw [hy]
        exact h3 x hx
    · rcases hwait with hwait | hwait
      · rw [hwait]; exact h2
      · rw [hwait, List.length_append]
        simp only [List.length_singleton]
        simp only [WINDOW_SIZE] at hw ⊢
        omega
    · rcases hwait with hwait | hwait
      · rw [hwait, hseq']
        intro q hq
        exact Nat.lt_succ_of_lt (h3 q hq)
      · rw [hwait, hseq']
        intro q hq
        rcases List.mem_append.mp hq with hq | hq
        · exact Nat.lt_succ_of_lt (h3 q hq)
        · simp only [List.mem_singleton] at hq
          rw [hq]
          exact Nat.lt_succ_self _

theorem invG_send (tr : Transport) (st : ODP) (p : List Nat) (h : InvG st) (hg : GoodTr tr)
    (hnw : st.seqnum + 1 < U64) : InvG (ODP.send tr st p).2.1 := by
  by_cases hw : WINDOW_SIZE ≤ st.ack_wait.length
  · have hst : (ODP.send tr st p).2.1 = st := by
      unfold ODP.send
      simp [hw]
    rwa [hst]
  · obtain ⟨hseq, hwait⟩ := send_state_good tr st p hg (by omega)
    obtain ⟨a, hmap, hsum⟩ := h
    refine ⟨a, ?_, ?_⟩
    · rw [hwait, List.map_append, hmap, List.length_append]
      simp only [List.map_cons, List.map_nil, List.length_singleton]
      have hs : st.seqnum = a + st.ack_wait.length := hsum.symm
      rw [hs]
      have := @List.range'_concat 1 a st.ack_wait.length
      simpa using this.symm
    · rw [hwait, hseq, Nat.mod_eq_of_lt hnw, List.length_append]
      simp only [List.length_singleton]
      omega

theorem runOps_invB (ownId : Nat) : ∀ (ops : List Op) (st : ODP), InvB st →
    st.seqnum + ops.length < U64 →
    InvB (runOps ownId st ops) ∧ (runOps ownId st ops).seqnum ≤ st.seqnum + ops.length := by
  intro ops
  induction ops with
  | nil =>
    intro st h _
    exact ⟨h, Nat.le_add_right _ _⟩
  | cons op rest ih =>
    intro st h hb
    simp only [List.length_cons] at hb
    simp only [runOps, List.foldl_cons]
    have hstep : InvB (stepOp ownId st op) ∧ (stepOp ownId st op).seqnum ≤ st.seqnum + 1 := by
      cases op with
      | send p tr =>
        exact invB_send tr st p h (by omega)
      | deliver d sp tr =>
        have hsh := recv_shape tr ownId st (List.replicate PKT_HDR_SIZE 0) d sp 0
        refine ⟨invB_of_shape st _ h hsh, ?_⟩
        show ((ODP.recv tr ownId st (List.replicate PKT_HDR_SIZE 0) d sp 0).stateOf st).seqnum
          ≤ st.seqnum + 1
        rw [hsh.1]
        omega
    have hrec := ih (stepOp ownId st op) hstep.1 (by omega)
    refine ⟨hrec.1, ?_⟩
    have h2 := hrec.2
    simp only [runOps] at h2
    simp only [List.length_cons]
    omega

theorem runOps_invG (ownId : Nat) : ∀ (ops : List Op) (st : ODP), InvG st → InvB st →
    SendsOk ops → st.seqnum + ops.length < U64 → InvG (runOps ownId st ops) := by
  intro ops
  induction ops with
  | nil =>
    intro st h _ _ _
    exact h
  | cons op rest ih =>
    intro st h hB hok hb
    simp only [List.length_cons] at hb
    simp only [runOps, List.foldl_cons]
    have hstepB : InvB (stepOp ownId st op) ∧ (stepOp ownId st op).seqnum ≤ st.seqnum + 1 := by
      cases op with
      | send p tr => exact invB_send tr st p hB (by omega)
      | deliver d sp tr =>
        have hsh := recv_shape tr ownId st (List.replicate PKT_HDR_SIZE 0) d sp 0
        refine ⟨invB_of_shape st _ hB hsh, ?_⟩
        show ((ODP.recv tr ownId st (List.replicate PKT_HDR_SIZE 0) d sp 0).stateOf st).seqnum
          ≤ st.seqnum + 1
        rw [hsh.1]
        omega
    have hstepG : InvG (stepOp ownId st op) := by
      cases op with
      | send p tr => exact invG_send tr st p h hok.1 (by omega)
      | deliver d sp tr =>
        exact invG_of_shape st _ h (recv_shape tr ownId st (List.replicate PKT_HDR_SIZE 0) d sp 0)
    have hok' : SendsOk rest := by
      cases op with
      | send p tr => exact hok.2
      | deliver d sp tr => exact hok
    exact ih (stepOp ownId st op) hstepG hstepB.1 hok'
      (by have := hstepB.2; omega)

theorem goodTr_trPerfect : GoodTr trPerfect := fun f h => ⟨f.length, rfl, h⟩

/-- C8 counterexample: after send-ok, send-with-transport-failure (`sendto`
reports 0 bytes, `SndError`), send-ok, the reachable state has
`unacked` seqnums `[0, 2]` — strictly sorted but with a gap, because the
failing send still incremented `next_seq`. -/
theorem claim_C8_counterexample :
    (runOps 1 ODP.new c8ops).ack_wait.map Prod.fst = [0, 2] ∧
    ¬ ∃ a, (runOps 1 ODP.new c8ops).ack_wait.map Prod.fst
        = List.range' a (runOps 1 ODP.new c8ops).ack_wait.length := by
  have h1 : (runOps 1 ODP.new c8ops).ack_wait.map Prod.fst = [0, 2] := by decide
  have h2 : (runOps 1 ODP.new c8ops).ack_wait.length = 2 := by decide
  refine ⟨h1, ?_⟩
  rintro ⟨a, ha⟩
  rw [h1, h2] at ha
  have h3 : ([0, 2] : List Nat) = [a, a + 1] := by
    simpa [List.range'_succ] using ha
  simp only [List.cons.injEq] at h3
  omega

/-- C8 (amended): in every state reachable from the initial state by fewer
than `2 ^ 64` operations (sends with arbitrary transport results, receives of
arbitrary datagrams), `unacked` is strictly sorted by seqnum, `|unacked| ≤
WINDOW_SIZE`, and every stored seqnum is `< next_seq`; when moreover every
send's transport accepts its frame, the seqnums form a contiguous gap-free
run ending at `next_seq`. -/
theorem claim_C8_invariants (ownId : Nat) (ops : List Op) (hlen : ops.length < U64) :
    List.Pairwise (· < ·) ((runOps ownId ODP.new ops).ack_wait.map Prod.fst) ∧
    (runOps ownId ODP.new ops).ack_wait.length ≤ WINDOW_SIZE ∧
    (∀ p ∈ (runOps ownId ODP.new ops).ack_wait, p.1 < (runOps ownId ODP.new ops).seqnum) ∧
    (SendsOk ops → ∃ a, (runOps ownId ODP.new ops).ack_wait.map Prod.fst
        = List.range' a (runOps ownId ODP.new ops).ack_wait.length ∧
        a + (runOps ownId ODP.new ops).ack_wait.length = (runOps ownId ODP.new ops).seqnum) := by
  have hinit : InvB ODP.new := ⟨List.Pairwise.nil, by simp [ODP.new], by simp [ODP.new]⟩
  have hb : (ODP.new).seqnum + ops.length < U64 := by simpa [ODP.new] using hlen
  have hB := runOps_invB ownId ops ODP.new hinit hb
  refine ⟨List.pairwise_map.mpr hB.1.1, hB.1.2.1, hB.1.2.2, ?_⟩
  intro hok
  exact runOps_invG ownId ops ODP.new ⟨0, by simp [ODP.new], by simp [ODP.new]⟩ hinit hok hb

/-- C8 witness: the amended invariants at a concrete three-operation trace
with every hypothesis discharged. -/
theorem claim_C8_witness :
    c8okops.length < U64 ∧ SendsOk c8okops ∧
    List.Pairwise (· < ·) ((runOps 1 ODP.new c8okops).ack_wait.map Prod.fst) ∧
    (∃ a, (runOps 1 ODP.new c8okops).ack_wait.map Prod.fst
        = List.range' a (runOps 1 ODP.new c8okops).ack_wait.length ∧
        a + (runOps 1 ODP.new c8okops).ack_wait.length = (runOps 1 ODP.new c8okops).seqnum) :=
  have hlen : c8okops.length < U64 := by decide
  have hok : SendsOk c8okops := by
    simp only [c8okops, SendsOk]
    exact ⟨goodTr_trPerfect, goodTr_trPerfect, trivial⟩
  ⟨hlen, hok, (claim_C8_invariants 1 c8okops hlen).1,
   (claim_C8_invariants 1 c8okops hlen).2.2.2 hok⟩

/-- C9 counterexample: after the window-filling sends of seqs 0 and 1,
processing an ACK frame carrying sequence number 1 empties `unacked`
(cumulative ack removes every seq ≤ 1) — it does not leave `[(1, …)]`. -/
theorem claim_C9_counterexample :
    ((ODP.recv_frame trPerfect c9_s2 [0] (ackFrame 1)).stateOf c9_s2).ack_wait.map Prod.fst
        ≠ [1] ∧
    ((ODP.recv_frame trPerfect c9_s2 [0] (ackFrame 1)).stateOf c9_s2).ack_wait = [] := by decide

/-- C9 (amended): with window 2, the first two sends succeed and the third
returns `RemoteWindowFull`; after processing the ACK carrying sequence
number 0 (the ack the peer emits on delivering the first packet), `unacked`
is `[(1, …)]` and a subsequent send succeeds. -/
theorem claim_C9_window_scenario :
    (ODP.send trPerfect ODP.new [104]).1 = .accepted 1 ∧
    (ODP.send trPerfect c9_s1 [105]).1 = .accepted 1 ∧
    (ODP.send trPerfect c9_s2 [106]).1 = .fail .RemoteWindowFull ∧
    ((ODP.recv_frame trPerfect c9_s2 [0] (ackFrame 0)).stateOf c9_s2).ack_wait.map Prod.fst
        = [1] ∧
    (ODP.send trPerfect ((ODP.recv_frame trPerfect c9_s2 [0] (ackFrame 0)).stateOf c9_s2)
        [106]).1 = .accepted 1 := by decide

/-- C3 witness: the success clause of the amended theorem at a concrete
send — `next_seq` incremented, frame appended. -/
theorem claim_C3_witness :
    (ODP.send trPerfect ODP.new [97]).2.1.seqnum = (ODP.new.seqnum + 1) % U64 ∧
    (ODP.send trPerfect ODP.new [97]).2.1.ack_wait
      = ODP.new.ack_wait ++ [(ODP.new.seqnum, sndFrame ODP.new.seqnum [97])] :=
  (claim_C3_send_errors trPerfect ODP.new [97]).2.2.2 1 (by decide)
